import Mathlib

set_option autoImplicit false

namespace FRT

/-!
Shallow embedding of `src/frt.py` (ffmpeg-remote-transcoder).

Strings are POSIX paths; the filesystem is an association list from a path to
an entry (a regular file with an abstract content tag, or a symbolic link).
Directories are not modelled: `os.makedirs(..., exist_ok=True)` is idempotent
and cannot fail on the paths the program builds, and `os.rmdir` during cleanup
only touches directories, so neither affects any claim about files or links.
Paths supplied by the caller are assumed already normalised (no `.`/`..`
segments and no doubled separators), which is the domain on which every claim
speaks; `os.path.abspath` / `os.path.relpath` are modelled on that domain.
-/

/-- Python `s.startswith(p)`: the first `len p` characters of `s` are `p`. -/
def strStarts (s p : String) : Bool :=
  decide (s.data.take p.data.length = p.data)

/-- Python `s.endswith(p)`. -/
def strEnds (s p : String) : Bool :=
  decide (s.data.reverse.take p.data.length = p.data.reverse)

/-- Python `needle in hay` (substring containment). -/
def strContainsSub (hay needle : String) : Bool :=
  (List.range (hay.data.length + 1)).any
    (fun i => strStarts (String.mk (hay.data.drop i)) needle)

/-- The extension component of Python `os.path.splitext`: within the last path
segment, the suffix from the last dot on, provided some non-dot character of
the segment comes before that dot (so `.bashrc` and `..a` have no extension). -/
def splitext_ext (p : String) : String :=
  let seg := (p.data.reverse.takeWhile (fun c => c ≠ '/')).reverse
  let rev := seg.reverse
  let body := rev.takeWhile (fun c => c ≠ '.')
  if body.length = rev.length then ""
  else if (rev.drop (body.length + 1)).all (fun c => c = '.') then ""
  else String.mk ('.' :: body.reverse)

/-- The lookahead `.*[a-zA-Z]` of the classification regex: some ASCII letter
occurs before the first newline. -/
def letterBeforeNewline : List Char → Bool
  | [] => false
  | c :: cs => if c = '\n' then false else (c.isAlpha || letterBeforeNewline cs)

/-- Python `re.search(r"^\.(?=.*[a-zA-Z]).*$", ext)` (no MULTILINE/DOTALL):
the string starts with a dot, an ASCII letter occurs before any newline in the
remainder, and `.*$` forces any newline in the remainder to be its final
character (`$` matches only at the end or just before a final newline). -/
def extMatches (ext : String) : Bool :=
  match ext.data with
  | [] => false
  | c :: rest =>
      (c == '.') && letterBeforeNewline rest && !(rest.dropLast.contains '\n')

/-- Python `os.path.join(a, b)` for POSIX paths. -/
def os_path_join (a b : String) : String :=
  if strStarts b "/" then b
  else if a = "" then b
  else if strEnds a "/" then a ++ b
  else a ++ "/" ++ b

/-- Python `os.path.abspath`, on already-normalised inputs: an absolute path is
returned unchanged, a relative one is joined onto the working directory. -/
def os_path_abspath (cwd p : String) : String :=
  if strStarts p "/" then p else os_path_join cwd p

/-- Python `os.path.relpath(p, start)`, modelled for the two call shapes in
frt.py: `start = "/"` (strip the leading separators) and `p` lying under
`start` (strip the `start ++ "/"` prefix); other inputs are out of the
modelled domain and returned unchanged. -/
def os_path_relpath (p start : String) : String :=
  if start = "/" then String.mk (p.data.dropWhile (fun c => c = '/'))
  else if p = start then "."
  else if strStarts p (start ++ "/") then String.mk (p.data.drop (start.data.length + 1))
  else p

/-- A filesystem node: a regular file with an abstract content tag, or a
symbolic link to a target path. -/
inductive Entry
  | file (tag : Nat)
  | symlink (target : String)
deriving DecidableEq, Repr

abbrev FS := List (String × Entry)

def lookupFS (fs : FS) (p : String) : Option Entry :=
  match fs with
  | [] => none
  | (q, e) :: rest => if q = p then some e else lookupFS rest p

/-- Python `os.path.exists` follows symbolic links; frt.py never creates a
chain of links, so one level of indirection is modelled. -/
def os_path_exists (fs : FS) (p : String) : Bool :=
  match lookupFS fs p with
  | some (Entry.file _) => true
  | some (Entry.symlink t) =>
      match lookupFS fs t with
      | some (Entry.file _) => true
      | _ => false
  | none => false

def os_path_islink (fs : FS) (p : String) : Bool :=
  match lookupFS fs p with
  | some (Entry.symlink _) => true
  | _ => false

/-- Python `os.symlink(target, linkpath)`: fails when `linkpath` is occupied. -/
def os_symlink (fs : FS) (target linkpath : String) : Option FS :=
  match lookupFS fs linkpath with
  | some _ => none
  | none => some ((linkpath, Entry.symlink target) :: fs)

/-- Python `os.link(srcname, dst)` (hard link): the destination name shares the
source's node; fails when the source is absent or the destination occupied. -/
def os_link (fs : FS) (srcname dst : String) : Option FS :=
  match lookupFS fs srcname with
  | none => none
  | some e =>
      match lookupFS fs dst with
      | some _ => none
      | none => some ((dst, e) :: fs)

/-- Python `os.unlink(p)`: removes the one name `p`; a hard-linked twin of the
node, or the target of a symbolic link at `p`, survives. -/
def os_unlink (fs : FS) (p : String) : FS :=
  fs.filter (fun kv => kv.1 != p)

/-- The module-level path context of frt.py: `localdir = join(client working
directory, job)`, `remotedir = join(server working directory, job)`, plus the
process working directory used by `os.path.abspath`. -/
structure Ctx where
  localdir : String
  remotedir : String
  cwd : String
deriving DecidableEq, Repr

/-- The `arg = arg[5:]` stripping of the explicit `file:` marker. -/
def argStripped (arg0 : String) : String :=
  if strStarts arg0 "file:" then String.mk (arg0.data.drop 5) else arg0

/-- The classification in `forward_reference`: a token is treated as a file
when it carries the `file:` marker, or when the extension of the (stripped)
token matches `^\.(?=.*[a-zA-Z]).*$`. -/
def is_file_like (arg0 : String) : Bool :=
  strStarts arg0 "file:" || extMatches (splitext_ext (argStripped arg0))

/-- `absolute = os.path.abspath(arg)` for the (stripped) token. -/
def argAbs (ctx : Ctx) (arg0 : String) : String :=
  os_path_abspath ctx.cwd (argStripped arg0)

/-- `local_working = os.path.join(localdir, os.path.relpath(absolute, "/"))`. -/
def localWorking (ctx : Ctx) (arg0 : String) : String :=
  os_path_join ctx.localdir (os_path_relpath (argAbs ctx arg0) "/")

/-- `remote_working = os.path.join(remotedir, os.path.relpath(absolute, "/"))`. -/
def remoteWorking (ctx : Ctx) (arg0 : String) : String :=
  os_path_join ctx.remotedir (os_path_relpath (argAbs ctx arg0) "/")

/-- One iteration of the `for i, arg in enumerate(ffmpeg_command)` loop of
`forward_reference`. Reads are from the current (partially rewritten) vector,
exactly as in Python; `ffmpeg_command[i - 1]` at `i = 0` is Python's negative
indexing and reads the last element. `os.makedirs(..., exist_ok=True)` is a
no-op in this model (directories are not modelled). -/
def frStep (ctx : Ctx) (cmd : List String) (i : Nat) (fs : FS) :
    Option (List String × FS) :=
  let arg0 := cmd.getD i ""
  if is_file_like arg0 then
    let lw := localWorking ctx arg0
    let prevIdx := if i = 0 then cmd.length - 1 else i - 1
    let newCmd := cmd.set i ("file:" ++ remoteWorking ctx arg0)
    if (cmd.getD prevIdx "" == "-i") && !(os_path_islink fs lw) then
      match os_symlink fs (argAbs ctx arg0) lw with
      | none => none
      | some fs2 => some (newCmd, fs2)
    else some (newCmd, fs)
  else some (cmd, fs)

/-- The loop of `forward_reference`, from index `i`, with `fuel` iterations
remaining (the loop body only replaces elements, so the vector length — and
with it the iteration count — is fixed). `none` models an uncaught OSError. -/
def frLoop (ctx : Ctx) : Nat → Nat → List String → FS → Option (List String × FS)
  | 0, _, cmd, fs => some (cmd, fs)
  | fuel + 1, i, cmd, fs =>
      match frStep ctx cmd i fs with
      | none => none
      | some (c2, f2) => frLoop ctx fuel (i + 1) c2 f2

/-- `forward_reference(ffmpeg_command)`: rewrites every file-like token to its
remote working path and symlinks input-flagged tokens into the local working
directory, returning the rewritten vector and the updated filesystem. -/
def forward_reference (ctx : Ctx) (cmd : List String) (fs : FS) :
    Option (List String × FS) :=
  frLoop ctx cmd.length 0 cmd fs

/-- The escaping class `[*()\s|\[\]]` used by `generate_ffmpeg_command`. -/
def escapeHit (c : Char) : Bool :=
  c == '*' || c == '(' || c == ')' || c == '|' || c == '[' || c == ']' ||
  c == ' ' || c == '\t' || c == '\n' || c == '\r' || c == '\x0b' || c == '\x0c'

def escape_arg (s : String) : String :=
  if s.data.any escapeHit then "\"" ++ s ++ "\"" else s

/-- `generate_ffmpeg_command(context)`: the tool path selected for the given
context, the passed-through arguments, then `forward_reference` and escaping.
The context affects only the tool path: the rewriting inside
`forward_reference` always uses the module-level `remotedir`. -/
def generate_ffmpeg_command (ctx : Ctx) (toolPath : String) (args : List String)
    (fs : FS) : Option (List String × FS) :=
  match forward_reference ctx (toolPath :: args) fs with
  | none => none
  | some (cmd, fs2) => some (cmd.map escape_arg, fs2)

/-- `WorkingDirectoryMonitor.paths`: the watchdog event path is absolute, so
`os.path.join(localdir, event.src_path)` returns it unchanged; the absolute
caller-visible path re-roots it from `localdir` to `/`. -/
def monitor_paths (localdir evPath : String) : String × String :=
  let working := os_path_join localdir evPath
  let relative := os_path_relpath working localdir
  let absolute := os_path_join "/" relative
  (working, absolute)

/-- `WorkingDirectoryMonitor.on_created`: if nothing exists at the mapped
absolute path, hard-link it to the working file. -/
def on_created (localdir : String) (fs : FS) (evPath : String) : Option FS :=
  let wa := monitor_paths localdir evPath
  if os_path_exists fs wa.2 then some fs
  else os_link fs wa.1 wa.2

/-- `WorkingDirectoryMonitor.on_deleted`: if something exists at the mapped
absolute path, unlink it. -/
def on_deleted (localdir : String) (fs : FS) (evPath : String) : FS :=
  let wa := monitor_paths localdir evPath
  if os_path_exists fs wa.2 then os_unlink fs wa.2 else fs

/-- The `os.walk` pass of `cleanup`: every file under the local working
directory is unlinked (and the emptied directories removed, which the model
does not track). Names outside the working tree are untouched. -/
def cleanup_unlink_walk (localdir : String) (fs : FS) : FS :=
  fs.filter (fun kv => !(strStarts kv.1 (localdir ++ "/")))

/-- The execution context argument of `run_ffmpeg_command`. -/
inductive ExecContext
  | Server
  | Client
deriving DecidableEq, Repr

/-- `run_ffmpeg_command(context)`, with the environment abstracted to the exit
code each attempt would produce (`remoteExit` for the SSH-wrapped attempt,
`localExit` for the local one). Besides the returned code, the list of
attempts actually launched is recorded so that specifications can speak about
how often each context ran; the Python function returns only the code. -/
def run_ffmpeg_command (remoteExit localExit : Nat) : ExecContext → Nat × List ExecContext
  | ExecContext.Client => (localExit, [ExecContext.Client])
  | ExecContext.Server =>
      if remoteExit = 255 then
        let rest := run_ffmpeg_command remoteExit localExit ExecContext.Client
        (rest.1, ExecContext.Server :: rest.2)
      else (remoteExit, [ExecContext.Server])
termination_by c => (match c with | ExecContext.Server => 1 | ExecContext.Client => 0)
decreasing_by simp

/-- The phases of one run, for temporal claims. `finalSweep` is modelled from
the spec: a walk of the working tree after child exit that links any
not-yet-linked produced file to its caller-visible path; frt.py has no such
phase, which is exactly what the temporal claim is settled against. -/
inductive Step
  | startObserver
  | runChild (c : ExecContext)
  | stopObserver
  | joinObserver
  | finalSweep
  | remoteKill
  | unlinkWalk
  | exitProcess
deriving DecidableEq, Repr

/-- The phases of one activation of `run_ffmpeg_command` (lines 249-259):
start the observer, run the child, stop the observer, join it. -/
def attempt_steps (c : ExecContext) : List Step :=
  [Step.startObserver, Step.runChild c, Step.stopObserver, Step.joinObserver]

/-- The phase trace of `run_ffmpeg_command("Server")` including the fallback
activation when the remote attempt exits 255. -/
def run_steps (remoteExit : Nat) : List Step :=
  attempt_steps ExecContext.Server ++
    (if remoteExit = 255 then attempt_steps ExecContext.Client else [])

/-- The phases of `cleanup`: remote orphan kill, the unlink walk, `exit()`. -/
def cleanup_steps : List Step :=
  [Step.remoteKill, Step.unlinkWalk, Step.exitProcess]

/-- The phase trace of `main()` on the normal-completion path. -/
def main_steps (remoteExit : Nat) : List Step :=
  run_steps remoteExit ++ cleanup_steps

/-- The caller-side standard streams a child descriptor can be wired to. -/
inductive StdStream
  | callerStdin
  | callerStdout
  | callerStderr
deriving DecidableEq, Repr

/-- The set `commands_bypass` of frt.py. -/
def commands_bypass : List String :=
  ["-help", "-h", "-version", "-encoders", "-decoders", "-hwaccels"]

/-- `bypass = len([cmd for cmd in commands_bypass if cmd in ffmpeg_args]) > 0`. -/
def bypassOf (args : List String) : Bool :=
  decide (0 < (commands_bypass.filter (fun c => decide (c ∈ args))).length)

/-- `map_std(ffmpeg_command)`: stdin is passed through, stdout goes to the
caller's stderr unless `bypass` holds or the command head contains "ffprobe",
and stderr goes to the caller's stderr. -/
def map_std (bypass : Bool) (cmd : List String) :
    StdStream × StdStream × StdStream :=
  let stdout :=
    if bypass || strContainsSub (cmd.getD 0 "") "ffprobe" then StdStream.callerStdout
    else StdStream.callerStderr
  (StdStream.callerStdin, stdout, StdStream.callerStderr)

/-- Modelled from the spec, for comparison against the classifier actually
implemented: a token is file-like when it carries the explicit marker prefix,
or when the extension of its last path segment is a dot followed by at least
one (ASCII) alphabetic character. -/
def claimed_file_like (arg0 : String) : Bool :=
  strStarts arg0 "file:" ||
    (match (splitext_ext arg0).data with
     | [] => false
     | c :: rest => (c == '.') && rest.any (fun ch => ch.isAlpha))

/-! ### Supporting lemmas -/

theorem lookupFS_cons_self (p : String) (e : Entry) (fs : FS) :
    lookupFS ((p, e) :: fs) p = some e := by
  simp [lookupFS]

theorem lookupFS_cons_ne (p q : String) (e : Entry) (fs : FS) (h : q ≠ p) :
    lookupFS ((q, e) :: fs) p = lookupFS fs p := by
  simp [lookupFS, h]

theorem lookupFS_os_unlink_self (fs : FS) (p : String) :
    lookupFS (os_unlink fs p) p = none := by
  induction fs with
  | nil => rfl
  | cons kv rest ih =>
      unfold os_unlink at ih ⊢
      by_cases h : kv.1 = p
      · simp [List.filter_cons, h, ih]
      · simp [List.filter_cons, h, lookupFS, ih]

/-! ### C2 -/

/-- C2: the remote attempt falls back to exactly one local attempt precisely
when it exits 255, in which case the local attempt's exit code (whatever it
is, 255 included) is returned as-is; any other remote exit code is returned
unchanged, so a remote 255 never surfaces as the final status. The second
conjunct shows the local attempt never retries, even on exit code 255. -/
theorem fallback_bounded (remoteExit localExit : Nat) :
    run_ffmpeg_command remoteExit localExit ExecContext.Server =
      (if remoteExit = 255 then (localExit, [ExecContext.Server, ExecContext.Client])
       else (remoteExit, [ExecContext.Server])) ∧
    run_ffmpeg_command remoteExit localExit ExecContext.Client =
      (localExit, [ExecContext.Client]) := by
  constructor
  · by_cases h : remoteExit = 255 <;> simp [run_ffmpeg_command, h]
  · simp [run_ffmpeg_command]

/-! ### C3 -/

/-- C3 is refuted: no activation of `run_ffmpeg_command`, and no phase of
`main`, performs a final sweep of the working directory after the child
process exits — the observer is merely stopped and joined, and finalization
begins immediately afterwards. -/
theorem no_final_sweep (remoteExit : Nat) :
    Step.finalSweep ∉ main_steps remoteExit := by
  by_cases h : remoteExit = 255 <;>
    simp [main_steps, run_steps, attempt_steps, cleanup_steps, h]

/-- Consequence of the missing sweep: an output file that materialised in the
working directory but whose creation event was never processed before the
observer stopped is destroyed by cleanup — its only name is unlinked and no
link was ever made at its caller-visible destination. -/
theorem late_output_file_is_destroyed :
    cleanup_unlink_walk "/opt/frt/j"
      [("/opt/frt/j/media/dest.mkv", Entry.file 5),
       ("/opt/frt/j/media/src.mp4", Entry.symlink "/media/src.mp4"),
       ("/media/src.mp4", Entry.file 3)] =
      [("/media/src.mp4", Entry.file 3)] := by
  decide

/-! ### C10 -/

/-- C10: the input-flag check reads `ffmpeg_command[i - 1]`, which at `i = 0`
is Python's negative indexing and reads the last token; so when the final
token is `-i` and the head token (the tool executable path) is classified
file-like, the head token receives a forward link although no input flag
precedes it. -/
theorem head_token_linked_when_last_is_input_flag :
    forward_reference ⟨"/opt/frt/j", "/mnt/frt/j", "/"⟩ ["/usr/bin/ffmpeg.exe", "-i"] [] =
      some (["file:/mnt/frt/j/usr/bin/ffmpeg.exe", "-i"],
            [("/opt/frt/j/usr/bin/ffmpeg.exe", Entry.symlink "/usr/bin/ffmpeg.exe")]) ∧
    ["/usr/bin/ffmpeg.exe", "-i"].getLast? = some "-i" := by
  decide

/-! ### C6 -/

/-- C6: when anything already exists at the mapped caller-visible absolute
path — a real file, an existing reverse reference, or the source a forward
link points at — a bridge creation event leaves the filesystem unchanged: no
link is created or duplicated there. -/
theorem on_created_skips_existing (localdir : String) (fs : FS) (evPath : String)
    (h : os_path_exists fs (monitor_paths localdir evPath).2 = true) :
    on_created localdir fs evPath = some fs := by
  simp [on_created, h]

/-- Witness for C6: first, the creation event fired for a forward-reference
link itself (its absolute-path source exists) creates nothing; second, a path
whose absolute destination is already occupied (an existing reverse link or
file) is not re-linked. -/
theorem on_created_skips_existing_witness :
    on_created "/opt/frt/j"
      [("/opt/frt/j/media/src.mp4", Entry.symlink "/media/src.mp4"),
       ("/media/src.mp4", Entry.file 3)]
      "/opt/frt/j/media/src.mp4" =
      some [("/opt/frt/j/media/src.mp4", Entry.symlink "/media/src.mp4"),
            ("/media/src.mp4", Entry.file 3)] ∧
    on_created "/opt/frt/j"
      [("/media/dest.mkv", Entry.file 9), ("/opt/frt/j/media/dest.mkv", Entry.file 9)]
      "/opt/frt/j/media/dest.mkv" =
      some [("/media/dest.mkv", Entry.file 9), ("/opt/frt/j/media/dest.mkv", Entry.file 9)] :=
  ⟨on_created_skips_existing _ _ _ (by decide),
   on_created_skips_existing _ _ _ (by decide)⟩

/-! ### C9 -/

/-- C9: a deletion event under the working directory unlinks whatever file
exists at the mapped caller-visible absolute path — the handler does not check
that the bridge created it, so deleting the working-side symlink of a forward
reference during the run unlinks the real caller-owned source file. -/
theorem on_deleted_unlinks_existing (localdir : String) (fs : FS) (evPath : String)
    (tag : Nat)
    (h : lookupFS fs (monitor_paths localdir evPath).2 = some (Entry.file tag)) :
    lookupFS (on_deleted localdir fs evPath) (monitor_paths localdir evPath).2 = none := by
  have hex : os_path_exists fs (monitor_paths localdir evPath).2 = true := by
    unfold os_path_exists
    rw [h]
  simp [on_deleted, hex, lookupFS_os_unlink_self]

/-- Witness for C9: the working-side symlink of a forward reference is
deleted; the handler maps it to the caller-owned source file and unlinks that
file, which the bridge never created. -/
theorem on_deleted_unlinks_existing_witness :
    lookupFS
      (on_deleted "/opt/frt/j"
        [("/opt/frt/j/media/src.mp4", Entry.symlink "/media/src.mp4"),
         ("/media/src.mp4", Entry.file 7)]
        "/opt/frt/j/media/src.mp4")
      "/media/src.mp4" = none :=
  on_deleted_unlinks_existing "/opt/frt/j" _ "/opt/frt/j/media/src.mp4" 7 (by decide)

/-! ### C7 -/

/-- C7 is refuted as stated: the token `"a.b\nc"` has extension `".b\nc"`,
which is a dot followed by an alphabetic character, yet the implemented
classifier rejects it — the regex's `.*$` cannot cross the interior newline
(`$` only matches at the end or before a final newline), so the token is left
unrewritten. -/
theorem classification_claim_counterexample :
    claimed_file_like "a.b\nc" = true ∧ is_file_like "a.b\nc" = false := by
  decide

theorem letterBeforeNewline_iff (cs : List Char) :
    letterBeforeNewline cs = true ↔
      ∃ l₁ c l₂, cs = l₁ ++ c :: l₂ ∧ c.isAlpha = true ∧ '\n' ∉ l₁ := by
  induction cs with
  | nil =>
      simp [letterBeforeNewline]
  | cons c cs ih =>
      by_cases hc : c = '\n'
      · subst hc
        rw [letterBeforeNewline, if_pos rfl]
        constructor
        · intro h
          exact absurd h (by simp)
        · rintro ⟨l₁, a, l₂, heq, ha, hn⟩
          cases l₁ with
          | nil =>
              simp only [List.nil_append, List.cons.injEq] at heq
              rw [← heq.1] at ha
              exact absurd ha (by decide)
          | cons x xs =>
              simp only [List.cons_append, List.cons.injEq] at heq
              rw [heq.1] at hn
              exact absurd (List.mem_cons_self x xs) hn
      · rw [letterBeforeNewline, if_neg hc, Bool.or_eq_true, ih]
        constructor
        · rintro (ha | ⟨l₁, a, l₂, heq, ha, hn⟩)
          · exact ⟨[], c, cs, rfl, ha, by simp⟩
          · refine ⟨c :: l₁, a, l₂, by rw [heq]; rfl, ha, ?_⟩
            simp only [List.mem_cons, not_or]
            exact ⟨fun hh => hc hh.symm, hn⟩
        · rintro ⟨l₁, a, l₂, heq, ha, hn⟩
          cases l₁ with
          | nil =>
              left
              simp only [List.nil_append, List.cons.injEq] at heq
              rw [heq.1]
              exact ha
          | cons x xs =>
              right
              simp only [List.cons_append, List.cons.injEq] at heq
              simp only [List.mem_cons, not_or] at hn
              exact ⟨xs, a, l₂, heq.2, ha, hn.2⟩

/-- C7, amended: a token is classified file-like if and only if it carries the
explicit marker prefix, or the extension of its last path segment starts with
a dot, some ASCII letter occurs in it before any newline, and any newline in
it can only be its final character. For newline-free tokens this coincides
with "a dot followed by at least one alphabetic character". -/
theorem classification_characterisation (arg0 : String) :
    is_file_like arg0 = true ↔
      strStarts arg0 "file:" = true ∨
        ∃ rest, (splitext_ext (argStripped arg0)).data = '.' :: rest ∧
          (∃ l₁ c l₂, rest = l₁ ++ c :: l₂ ∧ c.isAlpha = true ∧ '\n' ∉ l₁) ∧
          '\n' ∉ rest.dropLast := by
  unfold is_file_like
  rw [Bool.or_eq_true]
  apply or_congr Iff.rfl
  cases hd : (splitext_ext (argStripped arg0)).data with
  | nil =>
      have he : extMatches (splitext_ext (argStripped arg0)) = false := by
        unfold extMatches
        rw [hd]
      rw [he]
      simp
  | cons c rest =>
      have he : extMatches (splitext_ext (argStripped arg0)) =
          ((c == '.') && letterBeforeNewline rest && !(rest.dropLast.contains '\n')) := by
        unfold extMatches
        rw [hd]
      rw [he]
      by_cases hc : c = '.'
      · subst hc
        constructor
        · intro h
          simp only [Bool.and_eq_true, Bool.not_eq_true'] at h
          obtain ⟨⟨-, hlet⟩, hnl⟩ := h
          rw [letterBeforeNewline_iff] at hlet
          refine ⟨rest, rfl, hlet, ?_⟩
          simp only [List.contains, List.elem_eq_mem, decide_eq_false_iff_not] at hnl
          exact hnl
        · rintro ⟨r, hr, hlet, hnl⟩
          have hrr : rest = r := by
            simpa using congrArg List.tail hr
          subst hrr
          simp only [Bool.and_eq_true, Bool.not_eq_true']
          refine ⟨⟨by decide, ?_⟩, ?_⟩
          · rw [letterBeforeNewline_iff]
            exact hlet
          · simp only [List.contains, List.elem_eq_mem]
            simpa using hnl
      · constructor
        · intro h
          simp only [Bool.and_eq_true, beq_iff_eq] at h
          exact absurd h.1.1 hc
        · rintro ⟨r, hr, -, -⟩
          have hcd : c = '.' := by
            have := congrArg List.head? hr
            simpa using this
          exact absurd hcd hc

/-! ### C8 -/

theorem bypassOf_iff (args : List String) :
    bypassOf args = true ↔ ∃ c ∈ commands_bypass, c ∈ args := by
  unfold bypassOf
  rw [decide_eq_true_eq]
  constructor
  · intro h
    obtain ⟨c, hc⟩ := List.exists_mem_of_length_pos h
    rw [List.mem_filter] at hc
    exact ⟨c, hc.1, of_decide_eq_true hc.2⟩
  · rintro ⟨c, hmem, hin⟩
    apply List.length_pos_of_mem (a := c)
    rw [List.mem_filter]
    exact ⟨hmem, decide_eq_true hin⟩

/-- C8: the child's standard input is the caller's standard input, its
standard error goes to the caller's standard error, and its standard output is
redirected to the caller's standard error unless a bypass flag appears among
the arguments or the command head contains "ffprobe", in which case it is
passed through to the caller's standard output. -/
theorem map_std_stream_mapping (args cmd : List String) :
    map_std (bypassOf args) cmd =
      (StdStream.callerStdin,
       (if (∃ c ∈ commands_bypass, c ∈ args) ∨
           strContainsSub (cmd.getD 0 "") "ffprobe" = true
        then StdStream.callerStdout else StdStream.callerStderr),
       StdStream.callerStderr) := by
  simp only [map_std]
  by_cases h : (∃ c ∈ commands_bypass, c ∈ args) ∨
      strContainsSub (cmd.getD 0 "") "ffprobe" = true
  · rw [if_pos h, if_pos]
    rw [Bool.or_eq_true, bypassOf_iff]
    exact h
  · rw [if_neg h, if_neg]
    rw [Bool.or_eq_true, bypassOf_iff]
    exact h

/-! ### C4 -/

/-- C4 is refuted: after the remote attempt exits 255 and the translator is
re-run for the Client attempt, file-like tokens are still rewritten with the
module-level remote working root (`forward_reference` takes no context; the
context argument of `generate_ffmpeg_command` selects only the tool path), so
a source file's token maps to the remote working path, not to the file
itself. Shown on a Client-attempt invocation whose filesystem already holds
the forward link from the failed Server attempt. -/
theorem client_retranslation_keeps_remote_root :
    (run_ffmpeg_command 255 0 ExecContext.Server).2 =
      [ExecContext.Server, ExecContext.Client] ∧
    generate_ffmpeg_command ⟨"/opt/frt/j", "/mnt/frt/j", "/"⟩ "/usr/bin/ffmpeg"
        ["-i", "/media/src.mp4", "/media/dest.mkv"]
        [("/opt/frt/j/media/src.mp4", Entry.symlink "/media/src.mp4"),
         ("/media/src.mp4", Entry.file 0)] =
      some (["/usr/bin/ffmpeg", "-i", "file:/mnt/frt/j/media/src.mp4",
             "file:/mnt/frt/j/media/dest.mkv"],
            [("/opt/frt/j/media/src.mp4", Entry.symlink "/media/src.mp4"),
             ("/media/src.mp4", Entry.file 0)]) ∧
    ("file:/mnt/frt/j/media/src.mp4" : String) ≠ "file:/media/src.mp4" ∧
    ("file:/mnt/frt/j/media/src.mp4" : String) ≠ "/media/src.mp4" := by
  refine ⟨?_, by decide, by decide, by decide⟩
  simp [run_ffmpeg_command]

/-! ### C5 -/

theorem os_symlink_keeps (fs fs2 : FS) (t l p : String) (e : Entry)
    (h : os_symlink fs t l = some fs2) (hp : lookupFS fs p = some e) :
    lookupFS fs2 p = some e := by
  unfold os_symlink at h
  cases hl : lookupFS fs l with
  | some _ =>
      rw [hl] at h
      exact absurd h (by simp)
  | none =>
      rw [hl] at h
      injection h with h
      subst h
      have hne : l ≠ p := by
        intro hh
        rw [hh] at hl
        rw [hl] at hp
        cases hp
      rw [lookupFS_cons_ne p l _ fs hne]
      exact hp

theorem os_symlink_makes_link (fs fs2 : FS) (t l : String)
    (h : os_symlink fs t l = some fs2) :
    lookupFS fs2 l = some (Entry.symlink t) := by
  unfold os_symlink at h
  cases hl : lookupFS fs l with
  | some _ =>
      rw [hl] at h
      exact absurd h (by simp)
  | none =>
      rw [hl] at h
      injection h with h
      subst h
      exact lookupFS_cons_self l _ fs

theorem os_path_islink_keeps (fs f' : FS) (q : String)
    (hmono : ∀ p e, lookupFS fs p = some e → lookupFS f' p = some e)
    (h : os_path_islink fs q = true) : os_path_islink f' q = true := by
  unfold os_path_islink at h ⊢
  cases hl : lookupFS fs q with
  | none =>
      rw [hl] at h
      cases h
  | some e =>
      rw [hl] at h
      cases e with
      | file tag => cases h
      | symlink t =>
          rw [hmono q (Entry.symlink t) hl]

theorem frStep_keeps (ctx : Ctx) (cmd : List String) (i : Nat) (fs : FS)
    (c2 : List String) (f2 : FS) (p : String) (e : Entry)
    (h : frStep ctx cmd i fs = some (c2, f2)) (hp : lookupFS fs p = some e) :
    lookupFS f2 p = some e := by
  unfold frStep at h
  by_cases h1 : is_file_like (cmd.getD i "") = true
  · rw [if_pos h1] at h
    by_cases h2 : ((cmd.getD (if i = 0 then cmd.length - 1 else i - 1) "" == "-i") &&
        !(os_path_islink fs (localWorking ctx (cmd.getD i "")))) = true
    · rw [if_pos h2] at h
      cases hs : os_symlink fs (argAbs ctx (cmd.getD i "")) (localWorking ctx (cmd.getD i "")) with
      | none =>
          rw [hs] at h
          cases h
      | some fsx =>
          rw [hs] at h
          injection h with h
          have hf : f2 = fsx := congrArg Prod.snd h.symm
          subst hf
          exact os_symlink_keeps fs f2 _ _ p e hs hp
    · rw [if_neg h2] at h
      injection h with h
      have hf : f2 = fs := congrArg Prod.snd h.symm
      subst hf
      exact hp
  · rw [if_neg h1] at h
    injection h with h
    have hf : f2 = fs := congrArg Prod.snd h.symm
    subst hf
    exact hp

theorem frLoop_keeps (ctx : Ctx) (fuel : Nat) :
    ∀ (i : Nat) (cmd : List String) (fs : FS) (c' : List String) (f' : FS)
      (p : String) (e : Entry),
      frLoop ctx fuel i cmd fs = some (c', f') → lookupFS fs p = some e →
      lookupFS f' p = some e := by
  induction fuel with
  | zero =>
      intro i cmd fs c' f' p e h hp
      unfold frLoop at h
      injection h with h
      have hf : f' = fs := congrArg Prod.snd h.symm
      subst hf
      exact hp
  | succ n ih =>
      intro i cmd fs c' f' p e h hp
      unfold frLoop at h
      cases hs : frStep ctx cmd i fs with
      | none =>
          rw [hs] at h
          cases h
      | some pr =>
          rw [hs] at h
          exact ih (i + 1) pr.1 pr.2 c' f' p e h (frStep_keeps ctx cmd i fs pr.1 pr.2 p e hs hp)

theorem frStep_stable (ctx : Ctx) (cmd : List String) (i : Nat) (fs f' : FS)
    (c2 : List String) (f2 : FS)
    (h : frStep ctx cmd i fs = some (c2, f2))
    (hmono : ∀ p e, lookupFS f2 p = some e → lookupFS f' p = some e) :
    frStep ctx cmd i f' = some (c2, f') := by
  unfold frStep at h ⊢
  by_cases h1 : is_file_like (cmd.getD i "") = true
  · rw [if_pos h1] at h ⊢
    by_cases hprev : (cmd.getD (if i = 0 then cmd.length - 1 else i - 1) "" == "-i") = true
    · by_cases h3 : os_path_islink fs (localWorking ctx (cmd.getD i "")) = true
      · have hcond : (cmd.getD (if i = 0 then cmd.length - 1 else i - 1) "" == "-i" &&
            !os_path_islink fs (localWorking ctx (cmd.getD i ""))) = false := by
          rw [hprev, h3]
          rfl
        rw [if_neg (by rw [hcond]; exact Bool.false_ne_true)] at h
        injection h with h
        have hc : c2 = cmd.set i ("file:" ++ remoteWorking ctx (cmd.getD i "")) :=
          (congrArg Prod.fst h).symm
        have hf : f2 = fs := congrArg Prod.snd h.symm
        subst hf
        have h3' : os_path_islink f' (localWorking ctx (cmd.getD i "")) = true :=
          os_path_islink_keeps f2 f' _ hmono h3
        have hcond' : (cmd.getD (if i = 0 then cmd.length - 1 else i - 1) "" == "-i" &&
            !os_path_islink f' (localWorking ctx (cmd.getD i ""))) = false := by
          rw [hprev, h3']
          rfl
        rw [if_neg (by rw [hcond']; exact Bool.false_ne_true)]
        rw [hc]
      · have h3f : os_path_islink fs (localWorking ctx (cmd.getD i "")) = false := by
          cases hb : os_path_islink fs (localWorking ctx (cmd.getD i ""))
          · rfl
          · exact absurd hb h3
        have hcond : (cmd.getD (if i = 0 then cmd.length - 1 else i - 1) "" == "-i" &&
            !os_path_islink fs (localWorking ctx (cmd.getD i ""))) = true := by
          rw [hprev, h3f]
          rfl
        rw [if_pos hcond] at h
        cases hs : os_symlink fs (argAbs ctx (cmd.getD i "")) (localWorking ctx (cmd.getD i "")) with
        | none =>
            rw [hs] at h
            cases h
        | some fsx =>
            rw [hs] at h
            injection h with h
            have hc : c2 = cmd.set i ("file:" ++ remoteWorking ctx (cmd.getD i "")) :=
              (congrArg Prod.fst h).symm
            have hf : f2 = fsx := congrArg Prod.snd h.symm
            subst hf
            have hlink : lookupFS f2 (localWorking ctx (cmd.getD i "")) =
                some (Entry.symlink (argAbs ctx (cmd.getD i ""))) :=
              os_symlink_makes_link fs f2 _ _ hs
            have h3' : os_path_islink f' (localWorking ctx (cmd.getD i "")) = true := by
              unfold os_path_islink
              rw [hmono _ _ hlink]
            have hcond' : (cmd.getD (if i = 0 then cmd.length - 1 else i - 1) "" == "-i" &&
                !os_path_islink f' (localWorking ctx (cmd.getD i ""))) = false := by
              rw [hprev, h3']
              rfl
            rw [if_neg (by rw [hcond']; exact Bool.false_ne_true)]
            rw [hc]
    · have hprevf : (cmd.getD (if i = 0 then cmd.length - 1 else i - 1) "" == "-i") = false := by
        cases hb : (cmd.getD (if i = 0 then cmd.length - 1 else i - 1) "" == "-i")
        · rfl
        · exact absurd hb hprev
      have hcond : (cmd.getD (if i = 0 then cmd.length - 1 else i - 1) "" == "-i" &&
          !os_path_islink fs (localWorking ctx (cmd.getD i ""))) = false := by
        rw [hprevf]
        rfl
      have hcond' : (cmd.getD (if i = 0 then cmd.length - 1 else i - 1) "" == "-i" &&
          !os_path_islink f' (localWorking ctx (cmd.getD i ""))) = false := by
        rw [hprevf]
        rfl
      rw [if_neg (by rw [hcond]; exact Bool.false_ne_true)] at h
      injection h with h
      have hc : c2 = cmd.set i ("file:" ++ remoteWorking ctx (cmd.getD i "")) :=
        (congrArg Prod.fst h).symm
      rw [if_neg (by rw [hcond']; exact Bool.false_ne_true)]
      rw [hc]
  · rw [if_neg h1] at h ⊢
    injection h with h
    have hc : c2 = cmd := (congrArg Prod.fst h).symm
    rw [hc]

theorem frLoop_stable (ctx : Ctx) (fuel : Nat) :
    ∀ (i : Nat) (cmd : List String) (fs : FS) (c' : List String) (f' : FS),
      frLoop ctx fuel i cmd fs = some (c', f') →
      frLoop ctx fuel i cmd f' = some (c', f') := by
  induction fuel with
  | zero =>
      intro i cmd fs c' f' h
      unfold frLoop at h ⊢
      injection h with h
      have hc : c' = cmd := (congrArg Prod.fst h).symm
      rw [hc]
  | succ n ih =>
      intro i cmd fs c' f' h
      unfold frLoop at h ⊢
      cases hs : frStep ctx cmd i fs with
      | none =>
          rw [hs] at h
          cases h
      | some pr =>
          rw [hs] at h
          have hmono : ∀ p e, lookupFS pr.2 p = some e → lookupFS f' p = some e :=
            fun p e hp => frLoop_keeps ctx n (i + 1) pr.1 pr.2 c' f' p e h hp
          rw [frStep_stable ctx cmd i fs f' pr.1 pr.2 (by rw [hs]) hmono]
          exact ih (i + 1) pr.1 pr.2 c' f' h

/-- C5: the forward-reference step is idempotent. If one invocation on a
command vector succeeded, producing links `fs'`, then invoking it again on the
same vector raises no error, creates no second link, overwrites nothing, and
returns the very same filesystem (so at most one reference per caller-visible
path per job) and the same rewritten vector. -/
theorem forward_reference_idempotent (ctx : Ctx) (cmd : List String) (fs : FS)
    (cmd' : List String) (fs' : FS)
    (h : forward_reference ctx cmd fs = some (cmd', fs')) :
    forward_reference ctx cmd fs' = some (cmd', fs') :=
  frLoop_stable ctx cmd.length 0 cmd fs cmd' fs' h

/-- Witness for C5: a second run of the translator over the same command, on a
filesystem already holding the forward link made by the first run, succeeds
and changes nothing. -/
theorem forward_reference_idempotent_witness :
    forward_reference ⟨"/opt/frt/j", "/mnt/frt/j", "/"⟩
      ["/usr/bin/ffmpeg", "-i", "/media/src.mp4", "/media/dest.mkv"]
      [("/opt/frt/j/media/src.mp4", Entry.symlink "/media/src.mp4"),
       ("/media/src.mp4", Entry.file 0)] =
      some (["/usr/bin/ffmpeg", "-i", "file:/mnt/frt/j/media/src.mp4",
             "file:/mnt/frt/j/media/dest.mkv"],
            [("/opt/frt/j/media/src.mp4", Entry.symlink "/media/src.mp4"),
             ("/media/src.mp4", Entry.file 0)]) :=
  forward_reference_idempotent ⟨"/opt/frt/j", "/mnt/frt/j", "/"⟩
    ["/usr/bin/ffmpeg", "-i", "/media/src.mp4", "/media/dest.mkv"]
    [("/media/src.mp4", Entry.file 0)] _ _ (by decide)

/-! ### Path algebra for C1 -/

theorem strStarts_iff (s p : String) :
    strStarts s p = true ↔ ∃ t, s.data = p.data ++ t := by
  unfold strStarts
  rw [decide_eq_true_eq]
  constructor
  · intro h
    refine ⟨s.data.drop p.data.length, ?_⟩
    conv_lhs => rw [← List.take_append_drop p.data.length s.data]
    rw [h]
  · rintro ⟨t, ht⟩
    rw [ht, List.take_left]

theorem strStarts_append_self (x y : String) : strStarts (x ++ y) x = true := by
  rw [strStarts_iff]
  exact ⟨y.data, by rw [String.data_append]⟩

theorem strStarts_mono_append (a b p : String) (h : strStarts a p = true) :
    strStarts (a ++ b) p = true := by
  rw [strStarts_iff] at h ⊢
  obtain ⟨t, ht⟩ := h
  exact ⟨t ++ b.data, by rw [String.data_append, ht, List.append_assoc]⟩

theorem ne_of_starts_of_not_starts (x y q : String) (hx : strStarts x q = true)
    (hy : strStarts y q = false) : x ≠ y := by
  intro he
  rw [he, hy] at hx
  cases hx

theorem append_slash_ne_self (a r : String) : a ++ "/" ++ r ≠ a := by
  intro h
  have hlen := congrArg (fun s => s.data.length) h
  simp only [String.data_append, List.length_append] at hlen
  have hl : ("/" : String).data.length = 1 := rfl
  rw [hl] at hlen
  omega

theorem ne_root_of_not_ends (a : String) (h : strEnds a "/" = false) : a ≠ "/" := by
  intro he
  subst he
  exact absurd h (by decide)

theorem relpath_root_no_lead (s : String) :
    strStarts (os_path_relpath s "/") "/" = false := by
  unfold os_path_relpath
  rw [if_pos rfl]
  cases hb : strStarts (String.mk (s.data.dropWhile (fun c => decide (c = '/')))) "/"
  · rfl
  · exfalso
    rw [strStarts_iff] at hb
    obtain ⟨t, ht⟩ := hb
    have ht' : s.data.dropWhile (fun c => decide (c = '/')) = '/' :: t := ht
    have hh := List.head?_dropWhile_not (fun c => decide (c = '/')) s.data
    rw [ht'] at hh
    simp at hh

theorem join_of_abs (a b : String) (hb : strStarts b "/" = true) :
    os_path_join a b = b := by
  unfold os_path_join
  rw [if_pos hb]

theorem join_of_rel (a b : String) (ha : a ≠ "") (hasl : strEnds a "/" = false)
    (hb : strStarts b "/" = false) : os_path_join a b = a ++ "/" ++ b := by
  unfold os_path_join
  rw [if_neg (by rw [hb]; exact Bool.false_ne_true), if_neg ha,
    if_neg (by rw [hasl]; exact Bool.false_ne_true)]

theorem join_root (b : String) (hb : strStarts b "/" = false) :
    os_path_join "/" b = "/" ++ b := by
  unfold os_path_join
  rw [if_neg (by rw [hb]; exact Bool.false_ne_true)]
  rw [if_neg (by decide : ¬("/" : String) = "")]
  rw [if_pos (by decide : strEnds "/" "/" = true)]

theorem relpath_join_under (ld r : String) (hld : ld ≠ "/") :
    os_path_relpath (ld ++ "/" ++ r) ld = r := by
  unfold os_path_relpath
  rw [if_neg hld, if_neg (append_slash_ne_self ld r),
    if_pos (strStarts_append_self (ld ++ "/") r)]
  have hd : (ld ++ "/" ++ r).data = (ld.data ++ ("/" : String).data) ++ r.data := by
    simp only [String.data_append]
  rw [hd]
  have hlen : ld.data.length + 1 = (ld.data ++ ("/" : String).data).length := by
    rw [List.length_append]
    rfl
  rw [hlen, List.drop_left]

theorem argStripped_of_plain (p : String) (hm : strStarts p "file:" = false) :
    argStripped p = p := by
  unfold argStripped
  rw [if_neg (by rw [hm]; exact Bool.false_ne_true)]

theorem argAbs_of_abs (ctx : Ctx) (p : String)
    (hm : strStarts p "file:" = false) (habs : strStarts p "/" = true) :
    argAbs ctx p = p := by
  unfold argAbs
  rw [argStripped_of_plain p hm]
  unfold os_path_abspath
  rw [if_pos habs]

theorem localWorking_split (ctx : Ctx) (p : String)
    (hm : strStarts p "file:" = false) (habs : strStarts p "/" = true)
    (hld : ctx.localdir ≠ "") (hldsl : strEnds ctx.localdir "/" = false) :
    localWorking ctx p = ctx.localdir ++ "/" ++ os_path_relpath p "/" := by
  unfold localWorking
  rw [argAbs_of_abs ctx p hm habs]
  exact join_of_rel _ _ hld hldsl (relpath_root_no_lead p)

/-! ### Step-evaluation lemmas for forward_reference -/

theorem frStep_not_file (ctx : Ctx) (cmd : List String) (i : Nat) (fs : FS)
    (h : is_file_like (cmd.getD i "") = false) :
    frStep ctx cmd i fs = some (cmd, fs) := by
  simp only [frStep]
  rw [if_neg (by rw [h]; exact Bool.false_ne_true)]

theorem frStep_no_link (ctx : Ctx) (cmd : List String) (i : Nat) (fs : FS)
    (h1 : is_file_like (cmd.getD i "") = true)
    (h2 : (cmd.getD (if i = 0 then cmd.length - 1 else i - 1) "" == "-i" &&
      !os_path_islink fs (localWorking ctx (cmd.getD i ""))) = false) :
    frStep ctx cmd i fs =
      some (cmd.set i ("file:" ++ remoteWorking ctx (cmd.getD i "")), fs) := by
  simp only [frStep]
  rw [if_pos h1, if_neg (by rw [h2]; exact Bool.false_ne_true)]

theorem frStep_link (ctx : Ctx) (cmd : List String) (i : Nat) (fs fs2 : FS)
    (h1 : is_file_like (cmd.getD i "") = true)
    (h2 : (cmd.getD (if i = 0 then cmd.length - 1 else i - 1) "" == "-i" &&
      !os_path_islink fs (localWorking ctx (cmd.getD i ""))) = true)
    (h3 : os_symlink fs (argAbs ctx (cmd.getD i "")) (localWorking ctx (cmd.getD i "")) =
      some fs2) :
    frStep ctx cmd i fs =
      some (cmd.set i ("file:" ++ remoteWorking ctx (cmd.getD i "")), fs2) := by
  simp only [frStep]
  rw [if_pos h1, if_pos h2, h3]

theorem frLoop_chain (ctx : Ctx) (fuel i : Nat) (cmd : List String) (fs : FS)
    (c2 : List String) (f2 : FS) (res : Option (List String × FS))
    (h : frStep ctx cmd i fs = some (c2, f2))
    (hrest : frLoop ctx fuel (i + 1) c2 f2 = res) :
    frLoop ctx (fuel + 1) i cmd fs = res := by
  unfold frLoop
  rw [h]
  exact hrest

/-! ### C1 -/

/-- C1: round-trip of a successful job. Translating the command symlinks the
source into the working tree and rewrites both file tokens; when the produced
artifact appears in the working tree and the bridge observes it, it is
hard-linked to the caller-visible destination; cleanup then unlinks everything
under the working directory. Afterwards the output exists at its original
caller-visible path with the artifact's content, the source file is unmodified
at its original location, and its working-directory link is gone. The
hypotheses say the tokens are ordinary normalised absolute file paths disjoint
from the job's exclusively owned working directory. -/
theorem roundtrip_output_promoted_source_preserved
    (ctx : Ctx) (tool src dest : String) (d a : Nat)
    (htool : is_file_like tool = false)
    (hsrcm : strStarts src "file:" = false)
    (hsrce : extMatches (splitext_ext src) = true)
    (hdestm : strStarts dest "file:" = false)
    (hdeste : extMatches (splitext_ext dest) = true)
    (hsrcabs : strStarts src "/" = true)
    (hdestabs : strStarts dest "/" = true)
    (hld : ctx.localdir ≠ "")
    (hldsl : strEnds ctx.localdir "/" = false)
    (hldabs : strStarts ctx.localdir "/" = true)
    (hsrcout : strStarts src (ctx.localdir ++ "/") = false)
    (hdestout : strStarts dest (ctx.localdir ++ "/") = false)
    (hdestnorm : "/" ++ os_path_relpath dest "/" = dest)
    (hne : src ≠ dest) :
    forward_reference ctx [tool, "-i", src, dest] [(src, Entry.file d)] =
      some ([tool, "-i", "file:" ++ remoteWorking ctx src,
             "file:" ++ remoteWorking ctx dest],
            [(localWorking ctx src, Entry.symlink src), (src, Entry.file d)]) ∧
    on_created ctx.localdir
      [(localWorking ctx dest, Entry.file a),
       (localWorking ctx src, Entry.symlink src), (src, Entry.file d)]
      (localWorking ctx dest) =
      some [(dest, Entry.file a), (localWorking ctx dest, Entry.file a),
            (localWorking ctx src, Entry.symlink src), (src, Entry.file d)] ∧
    lookupFS (cleanup_unlink_walk ctx.localdir
      [(dest, Entry.file a), (localWorking ctx dest, Entry.file a),
       (localWorking ctx src, Entry.symlink src), (src, Entry.file d)]) dest =
      some (Entry.file a) ∧
    lookupFS (cleanup_unlink_walk ctx.localdir
      [(dest, Entry.file a), (localWorking ctx dest, Entry.file a),
       (localWorking ctx src, Entry.symlink src), (src, Entry.file d)]) src =
      some (Entry.file d) ∧
    lookupFS (cleanup_unlink_walk ctx.localdir
      [(dest, Entry.file a), (localWorking ctx dest, Entry.file a),
       (localWorking ctx src, Entry.symlink src), (src, Entry.file d)])
      (localWorking ctx src) = none := by
  have hldroot : ctx.localdir ≠ "/" := ne_root_of_not_ends _ hldsl
  have hlwS : localWorking ctx src = ctx.localdir ++ "/" ++ os_path_relpath src "/" :=
    localWorking_split ctx src hsrcm hsrcabs hld hldsl
  have hlwD : localWorking ctx dest = ctx.localdir ++ "/" ++ os_path_relpath dest "/" :=
    localWorking_split ctx dest hdestm hdestabs hld hldsl
  have hlwS_under : strStarts (localWorking ctx src) (ctx.localdir ++ "/") = true := by
    rw [hlwS]
    exact strStarts_append_self (ctx.localdir ++ "/") _
  have hlwD_under : strStarts (localWorking ctx dest) (ctx.localdir ++ "/") = true := by
    rw [hlwD]
    exact strStarts_append_self (ctx.localdir ++ "/") _
  have hlwS_ne_src : localWorking ctx src ≠ src :=
    ne_of_starts_of_not_starts _ _ _ hlwS_under hsrcout
  have hlwS_ne_dest : localWorking ctx src ≠ dest :=
    ne_of_starts_of_not_starts _ _ _ hlwS_under hdestout
  have hlwD_ne_src : localWorking ctx dest ≠ src :=
    ne_of_starts_of_not_starts _ _ _ hlwD_under hsrcout
  have hlwD_ne_dest : localWorking ctx dest ≠ dest :=
    ne_of_starts_of_not_starts _ _ _ hlwD_under hdestout
  have hsrc_ne_lwS : src ≠ localWorking ctx src := Ne.symm hlwS_ne_src
  have hfl_src : is_file_like src = true := by
    unfold is_file_like
    rw [argStripped_of_plain src hsrcm, hsrcm, hsrce]
    rfl
  have hfl_dest : is_file_like dest = true := by
    unfold is_file_like
    rw [argStripped_of_plain dest hdestm, hdestm, hdeste]
    rfl
  have hfl_i : is_file_like "-i" = false := by decide
  have hargAbs_src : argAbs ctx src = src := argAbs_of_abs ctx src hsrcm hsrcabs
  have hlookS : lookupFS [(src, Entry.file d)] (localWorking ctx src) = none := by
    simp only [lookupFS]
    rw [if_neg hsrc_ne_lwS]
  have hislinkS : os_path_islink [(src, Entry.file d)] (localWorking ctx src) = false := by
    unfold os_path_islink
    rw [hlookS]
  have hsym2 : os_symlink [(src, Entry.file d)] (argAbs ctx src) (localWorking ctx src) =
      some [(localWorking ctx src, Entry.symlink (argAbs ctx src)), (src, Entry.file d)] := by
    unfold os_symlink
    rw [hlookS]
  have hcond2 : ((("-i" : String) == "-i") &&
      !os_path_islink [(src, Entry.file d)] (localWorking ctx src)) = true := by
    rw [hislinkS]
    rfl
  have hstep0 : frStep ctx [tool, "-i", src, dest] 0 [(src, Entry.file d)] =
      some ([tool, "-i", src, dest], [(src, Entry.file d)]) :=
    frStep_not_file ctx [tool, "-i", src, dest] 0 [(src, Entry.file d)] htool
  have hstep1 : frStep ctx [tool, "-i", src, dest] 1 [(src, Entry.file d)] =
      some ([tool, "-i", src, dest], [(src, Entry.file d)]) :=
    frStep_not_file ctx [tool, "-i", src, dest] 1 [(src, Entry.file d)] hfl_i
  have hstep2 : frStep ctx [tool, "-i", src, dest] 2 [(src, Entry.file d)] =
      some ([tool, "-i", "file:" ++ remoteWorking ctx src, dest],
            [(localWorking ctx src, Entry.symlink src), (src, Entry.file d)]) := by
    have h := frStep_link ctx [tool, "-i", src, dest] 2 [(src, Entry.file d)]
      [(localWorking ctx src, Entry.symlink (argAbs ctx src)), (src, Entry.file d)]
      hfl_src hcond2 hsym2
    rw [hargAbs_src] at h
    exact h
  have hne5 : ("file:" ++ remoteWorking ctx src) ≠ "-i" := by
    intro hcontra
    have hlen := congrArg (fun s => s.data.length) hcontra
    simp only [String.data_append, List.length_append] at hlen
    have h5 : ("file:" : String).data.length = 5 := rfl
    have h2 : ("-i" : String).data.length = 2 := rfl
    rw [h5, h2] at hlen
    omega
  have hbeqF : (("file:" ++ remoteWorking ctx src) == "-i") = false := by
    rw [beq_eq_false_iff_ne]
    exact hne5
  have hcond3 : ((("file:" ++ remoteWorking ctx src) == "-i") &&
      !os_path_islink [(localWorking ctx src, Entry.symlink src), (src, Entry.file d)]
        (localWorking ctx dest)) = false := by
    rw [hbeqF]
    rfl
  have hstep3 : frStep ctx [tool, "-i", "file:" ++ remoteWorking ctx src, dest] 3
      [(localWorking ctx src, Entry.symlink src), (src, Entry.file d)] =
      some ([tool, "-i", "file:" ++ remoteWorking ctx src, "file:" ++ remoteWorking ctx dest],
            [(localWorking ctx src, Entry.symlink src), (src, Entry.file d)]) :=
    frStep_no_link ctx [tool, "-i", "file:" ++ remoteWorking ctx src, dest] 3
      [(localWorking ctx src, Entry.symlink src), (src, Entry.file d)] hfl_dest hcond3
  have hfr : forward_reference ctx [tool, "-i", src, dest] [(src, Entry.file d)] =
      some ([tool, "-i", "file:" ++ remoteWorking ctx src,
             "file:" ++ remoteWorking ctx dest],
            [(localWorking ctx src, Entry.symlink src), (src, Entry.file d)]) := by
    show frLoop ctx (3 + 1) 0 [tool, "-i", src, dest] [(src, Entry.file d)] = _
    exact frLoop_chain ctx 3 0 _ _ _ _ _ hstep0
      (frLoop_chain ctx 2 1 _ _ _ _ _ hstep1
        (frLoop_chain ctx 1 2 _ _ _ _ _ hstep2
          (frLoop_chain ctx 0 3 _ _ _ _ _ hstep3 rfl)))
  have hlwDabs : strStarts (localWorking ctx dest) "/" = true := by
    rw [hlwD]
    exact strStarts_mono_append _ _ _ (strStarts_mono_append _ _ _ hldabs)
  have hmp : monitor_paths ctx.localdir (localWorking ctx dest) =
      (localWorking ctx dest, dest) := by
    simp only [monitor_paths]
    rw [join_of_abs _ _ hlwDabs]
    conv_lhs => rw [hlwD, relpath_join_under ctx.localdir _ hldroot,
      join_root _ (relpath_root_no_lead dest), hdestnorm]
    rw [← hlwD]
  have hlookdest : lookupFS
      [(localWorking ctx dest, Entry.file a),
       (localWorking ctx src, Entry.symlink src), (src, Entry.file d)] dest = none := by
    rw [lookupFS_cons_ne dest _ _ _ hlwD_ne_dest,
      lookupFS_cons_ne dest _ _ _ hlwS_ne_dest,
      lookupFS_cons_ne dest _ _ _ hne]
    rfl
  have hexD : os_path_exists
      [(localWorking ctx dest, Entry.file a),
       (localWorking ctx src, Entry.symlink src), (src, Entry.file d)] dest = false := by
    unfold os_path_exists
    rw [hlookdest]
  have honc : on_created ctx.localdir
      [(localWorking ctx dest, Entry.file a),
       (localWorking ctx src, Entry.symlink src), (src, Entry.file d)]
      (localWorking ctx dest) =
      some [(dest, Entry.file a), (localWorking ctx dest, Entry.file a),
            (localWorking ctx src, Entry.symlink src), (src, Entry.file d)] := by
    simp only [on_created, hmp]
    rw [if_neg (by rw [hexD]; exact Bool.false_ne_true)]
    unfold os_link
    rw [lookupFS_cons_self, hlookdest]
  have hkeepD : (!strStarts dest (ctx.localdir ++ "/")) = true := by
    rw [hdestout]
    rfl
  have hkeepS : (!strStarts src (ctx.localdir ++ "/")) = true := by
    rw [hsrcout]
    rfl
  have hdropD : (!strStarts (localWorking ctx dest) (ctx.localdir ++ "/")) = false := by
    rw [hlwD_under]
    rfl
  have hdropS : (!strStarts (localWorking ctx src) (ctx.localdir ++ "/")) = false := by
    rw [hlwS_under]
    rfl
  have hclean : cleanup_unlink_walk ctx.localdir
      [(dest, Entry.file a), (localWorking ctx dest, Entry.file a),
       (localWorking ctx src, Entry.symlink src), (src, Entry.file d)] =
      [(dest, Entry.file a), (src, Entry.file d)] := by
    unfold cleanup_unlink_walk
    rw [List.filter_cons, List.filter_cons, List.filter_cons, List.filter_cons]
    rw [if_pos hkeepD, if_neg (by rw [hdropD]; exact Bool.false_ne_true),
      if_neg (by rw [hdropS]; exact Bool.false_ne_true), if_pos hkeepS]
    rfl
  refine ⟨hfr, honc, ?_, ?_, ?_⟩
  · rw [hclean, lookupFS_cons_self]
  · rw [hclean, lookupFS_cons_ne src dest _ _ (Ne.symm hne), lookupFS_cons_self]
  · rw [hclean, lookupFS_cons_ne _ dest _ _ hlwS_ne_dest.symm,
      lookupFS_cons_ne _ src _ _ hlwS_ne_src.symm]
    rfl

/-- Witness for C1: a concrete job transcoding `/media/src.mp4` into
`/media/dest.mkv` through working directory `/opt/frt/j`; after cleanup the
destination holds the artifact, the source is intact, and the working link is
gone. -/
theorem roundtrip_witness :
    lookupFS (cleanup_unlink_walk "/opt/frt/j"
      [("/media/dest.mkv", Entry.file 1),
       ("/opt/frt/j/media/dest.mkv", Entry.file 1),
       ("/opt/frt/j/media/src.mp4", Entry.symlink "/media/src.mp4"),
       ("/media/src.mp4", Entry.file 0)]) "/media/dest.mkv" = some (Entry.file 1) ∧
    lookupFS (cleanup_unlink_walk "/opt/frt/j"
      [("/media/dest.mkv", Entry.file 1),
       ("/opt/frt/j/media/dest.mkv", Entry.file 1),
       ("/opt/frt/j/media/src.mp4", Entry.symlink "/media/src.mp4"),
       ("/media/src.mp4", Entry.file 0)]) "/media/src.mp4" = some (Entry.file 0) ∧
    lookupFS (cleanup_unlink_walk "/opt/frt/j"
      [("/media/dest.mkv", Entry.file 1),
       ("/opt/frt/j/media/dest.mkv", Entry.file 1),
       ("/opt/frt/j/media/src.mp4", Entry.symlink "/media/src.mp4"),
       ("/media/src.mp4", Entry.file 0)]) "/opt/frt/j/media/src.mp4" = none :=
  (roundtrip_output_promoted_source_preserved ⟨"/opt/frt/j", "/mnt/frt/j", "/"⟩
    "/usr/bin/ffmpeg" "/media/src.mp4" "/media/dest.mkv" 0 1
    (by decide) (by decide) (by decide) (by decide) (by decide) (by decide)
    (by decide) (by decide) (by decide) (by decide) (by decide) (by decide)
    (by decide) (by decide)).2.2

end FRT
